import Mathlib

/-!
# Verification of the macmush client engine against its specification

Shallow embedding of the core of the `macmush` MUD client (Rust, under
`src-tauri/src`): the telnet/MCCP protocol layer, the pattern rule engine
(triggers, aliases, highlights), the speedwalk expander, the timer scheduler
and the session orchestrator's outbound pipeline, together with theorems
settling the specification's claims about them.

External collaborators (the `regex` crate's compiler and matcher, the zlib
streams, the Lua scripting sandbox, the TCP transport) are not implemented by
the repository; they enter the embedding as explicit function parameters or
as small modelled oracles, each marked as such in its doc comment.
-/

namespace Macmush

/-! ## String helpers

The Rust code works on `&str`/`String`; the embedding works on `String` and
`List Char`, with the handful of standard-library string operations the code
uses (`trim`, `split_whitespace`, `contains`, `replace`, `starts_with`,
`str::len` in bytes) re-implemented structurally so that concrete inputs
evaluate inside the kernel.
-/

/-- `char::is_whitespace` as used on the ASCII command strings here. -/
def isWs (c : Char) : Bool := c.isWhitespace

/-- Drop leading whitespace characters. -/
def dropLeadingWs : List Char → List Char
  | [] => []
  | c :: rest => if isWs c then dropLeadingWs rest else c :: rest

/-- `str::trim`: remove leading and trailing whitespace. -/
def trimChars (s : List Char) : List Char :=
  ((dropLeadingWs (dropLeadingWs s).reverse)).reverse

/-- Accumulator for `splitWs`. -/
def splitWsAux : List Char → List Char → List (List Char)
  | [], cur => if cur.isEmpty then [] else [cur.reverse]
  | c :: rest, cur =>
    if isWs c then
      if cur.isEmpty then splitWsAux rest [] else cur.reverse :: splitWsAux rest []
    else splitWsAux rest (c :: cur)

/-- `str::split_whitespace`: non-empty runs of non-whitespace characters. -/
def splitWs (s : List Char) : List (List Char) := splitWsAux s []

/-- `str::contains(needle)`: substring occurrence test. -/
def containsSub : List Char → List Char → Bool
  | [], needle => needle.isEmpty
  | c :: rest, needle => List.isPrefixOf needle (c :: rest) || containsSub rest needle

/-- Fuel-driven core of `str::replace`: replace every leftmost non-overlapping
occurrence of `needle` (always non-empty at the call sites) by `repl`. -/
def replaceAllAux (needle repl : List Char) : Nat → List Char → List Char
  | 0, s => s
  | _ + 1, [] => []
  | fuel + 1, c :: rest =>
    if needle ≠ [] ∧ List.isPrefixOf needle (c :: rest) then
      repl ++ replaceAllAux needle repl fuel (List.drop needle.length (c :: rest))
    else
      c :: replaceAllAux needle repl fuel rest

/-- `str::replace(needle, repl)` on strings. -/
def replaceStr (s needle repl : String) : String :=
  String.mk (replaceAllAux needle.toList repl.toList s.toList.length s.toList)

/-- `str::parse::<usize>` on an all-digit slice (a `usize` overflow in Rust
yields `Err`, which the speedwalk caller turns into `None` just as the
over-maximum check below does). -/
def parseNat (cs : List Char) : Option Nat :=
  if cs.isEmpty || !cs.all Char.isDigit then none
  else some (cs.foldl (fun n c => n * 10 + (c.toNat - '0'.toNat)) 0)

/-! ## Speedwalk (`automation/speedwalk.rs`) -/

/-- `SpeedwalkConfig`: enabled flag and the short-form → full-command map
(Rust `HashMap`, embedded as an association list with distinct keys). -/
structure SpeedwalkConfig where
  enabled : Bool
  directionMap : List (String × String)

/-- `default_direction_map()`. -/
def defaultDirectionMap : List (String × String) :=
  [("n", "north"), ("s", "south"), ("e", "east"), ("w", "west"),
   ("ne", "northeast"), ("nw", "northwest"), ("se", "southeast"), ("sw", "southwest"),
   ("u", "up"), ("d", "down")]

/-- `SpeedwalkConfig::default()`. -/
def defaultSpeedwalk : SpeedwalkConfig :=
  { enabled := true, directionMap := defaultDirectionMap }

/-- `HashMap::get` on the association-list embedding. -/
def mapGet (m : List (String × String)) (k : String) : Option String :=
  match m with
  | [] => none
  | (k', v) :: rest => if k' = k then some v else mapGet rest k

/-- `Speedwalk::parse_counted_direction`: split a token like `"4n"` into
`(count, short form)`; counts of `0` or above `1000` are rejected. -/
def parseCountedDirection (token : List Char) : Option (Nat × List Char) :=
  if (token.takeWhile Char.isDigit).length = 0 ∨
      (token.takeWhile Char.isDigit).length = token.length then none
  else
    match parseNat (token.take (token.takeWhile Char.isDigit).length) with
    | none => none
    | some count =>
      if count = 0 ∨ count > 1000 then none
      else some (count, token.drop (token.takeWhile Char.isDigit).length)

/-- `Speedwalk::parse_token`: full direction name, bare short form, or
`<count><short form>`. -/
def parseToken (m : List (String × String)) (token : String) : Option (List String) :=
  if m.any (fun p => p.2 = token) then some [token]
  else
    match mapGet m token with
    | some full => some [full]
    | none =>
      match parseCountedDirection token.toList with
      | some (count, direction) =>
        match mapGet m (String.mk direction) with
        | some full => some (List.replicate count full)
        | none => none
      | none => none

/-- The token loop of `Speedwalk::try_expand`: any failing token aborts the
whole expansion. -/
def tryExpandLoop (m : List (String × String)) : List String → List String → Option (List String)
  | [], acc => some acc
  | t :: rest, acc =>
    match parseToken m t with
    | some cmds => tryExpandLoop m rest (acc ++ cmds)
    | none => none

/-- `Speedwalk::try_expand`. -/
def tryExpand (cfg : SpeedwalkConfig) (command : String) : Option (List String) :=
  if !cfg.enabled then none
  else if (trimChars command.toList).isEmpty then none
  else
    match tryExpandLoop cfg.directionMap
        ((splitWs (trimChars command.toList)).map String.mk) [] with
    | none => none
    | some expanded => if expanded.isEmpty then none else some expanded

theorem tryExpandLoop_none_of_bad_token (m : List (String × String)) :
    ∀ (ts : List String) (acc : List String) (t : String),
      t ∈ ts → parseToken m t = none → tryExpandLoop m ts acc = none := by
  intro ts
  induction ts with
  | nil => intro acc t h; cases h
  | cons hd tl ih =>
    intro acc t hmem hbad
    rcases List.mem_cons.mp hmem with h | h
    · subst h
      simp [tryExpandLoop, hbad]
    · cases hp : parseToken m hd with
      | none => simp [tryExpandLoop, hp]
      | some cmds =>
        simp only [tryExpandLoop, hp]
        exact ih _ t h hbad

theorem parseCountedDirection_bounds (token : List Char) (count : Nat) (dir : List Char)
    (h : parseCountedDirection token = some (count, dir)) : 0 < count ∧ count ≤ 1000 := by
  unfold parseCountedDirection at h
  split at h
  · exact Option.noConfusion h
  · split at h
    · exact Option.noConfusion h
    · split at h
      · exact Option.noConfusion h
      · rename_i c hc hguard
        injection h with h'
        injection h' with h1 h2
        push_neg at hguard
        omega

/-- C6: speedwalk expansion.  `"4n"` expands to four norths and `"2n 3e"` to
two norths and three easts; an input containing any token that parses neither
as a direction name, a short form, nor `<count><short form>` is left
unexpanded (`try_expand` returns `none`, so the input is sent as one literal
command); `"0n"` and counts above the maximum of 1000 are rejected as
non-speedwalk; and with speedwalking disabled every input is left alone. -/
theorem C6_speedwalk_expansion :
    tryExpand defaultSpeedwalk "4n" = some ["north", "north", "north", "north"] ∧
    tryExpand defaultSpeedwalk "2n 3e" = some ["north", "north", "east", "east", "east"] ∧
    (∀ (cfg : SpeedwalkConfig) (input t : String),
      t ∈ (splitWs (trimChars input.toList)).map String.mk →
      parseToken cfg.directionMap t = none →
      tryExpand cfg input = none) ∧
    tryExpand defaultSpeedwalk "look" = none ∧
    tryExpand defaultSpeedwalk "0n" = none ∧
    tryExpand defaultSpeedwalk "1001n" = none ∧
    (∀ (token : List Char) (count : Nat) (dir : List Char),
      parseCountedDirection token = some (count, dir) → 0 < count ∧ count ≤ 1000) ∧
    (∀ (cfg : SpeedwalkConfig) (input : String),
      cfg.enabled = false → tryExpand cfg input = none) := by
  refine ⟨by decide, by decide, ?_, by decide, by decide, by decide,
    parseCountedDirection_bounds, ?_⟩
  · intro cfg input t hmem hbad
    by_cases he : cfg.enabled
    · have h1 : tryExpandLoop cfg.directionMap
          ((splitWs (trimChars input.toList)).map String.mk) [] = none :=
        tryExpandLoop_none_of_bad_token _ _ _ t hmem hbad
      unfold tryExpand
      rw [h1]
      simp [he]
    · simp only [Bool.not_eq_true] at he
      simp [tryExpand, he]
  · intro cfg input h
    simp [tryExpand, h]

/-- Witness for C6 at concrete inputs: `"look"` contains the unparseable
token `"look"`, and disabling speedwalk leaves `"4n"` unexpanded. -/
theorem C6_speedwalk_expansion_witness :
    tryExpand defaultSpeedwalk "look" = none ∧
    tryExpand { enabled := false, directionMap := defaultDirectionMap } "4n" = none := by
  constructor
  · exact C6_speedwalk_expansion.2.2.1 defaultSpeedwalk "look" "look" (by decide) (by decide)
  · exact C6_speedwalk_expansion.2.2.2.2.2.2.2
      { enabled := false, directionMap := defaultDirectionMap } "4n" rfl

/-! ## Errors (`error.rs`)

`MushError`, restricted to the variants the embedded code constructs.  The
`source: regex::Error` payload of `InvalidRegex` is a value of the external
regex library and is abstracted away; only the variant and pattern matter to
the claims. -/

inductive MushError where
  | invalidRegex (pattern : String)
  | validationError (field reason : String)
deriving DecidableEq

deriving instance DecidableEq for Except

/-! ## Pattern validation (`automation/triggers.rs`, `automation/highlights.rs`)

Both `Trigger::validate_pattern` and `Highlight::validate_pattern` screen for
catastrophic-backtracking substrings and then hand the pattern to the external
regex library's `Regex::new`.  The library call enters the embedding as the
`compiles` parameter. -/

/-- `Trigger::validate_pattern`. -/
def triggerValidatePattern (compiles : String → Bool) (pattern : String) :
    Except MushError Unit :=
  if containsSub pattern.toList ")+".toList || containsSub pattern.toList ")*".toList ||
      containsSub pattern.toList "\x7d+".toList || containsSub pattern.toList "\x7d*".toList then
    Except.error (MushError.invalidRegex pattern)
  else if containsSub pattern.toList "|".toList &&
      (containsSub pattern.toList ")*".toList || containsSub pattern.toList ")+".toList) &&
      containsSub pattern.toList "(a|a)".toList then
    Except.error (MushError.invalidRegex pattern)
  else if compiles pattern then Except.ok ()
  else Except.error (MushError.invalidRegex pattern)

/-- `Highlight::validate_pattern` (same screen without the overlapping
alternation branch). -/
def highlightValidatePattern (compiles : String → Bool) (pattern : String) :
    Except MushError Unit :=
  if containsSub pattern.toList ")+".toList || containsSub pattern.toList ")*".toList ||
      containsSub pattern.toList "\x7d+".toList || containsSub pattern.toList "\x7d*".toList then
    Except.error (MushError.invalidRegex pattern)
  else if compiles pattern then Except.ok ()
  else Except.error (MushError.invalidRegex pattern)

/-- Bracket-balance scan used by the `regexNewOk` model below. -/
def bracketBalanced : List Char → Nat → Nat → Bool
  | [], parens, classes => (parens == 0) && (classes == 0)
  | c :: rest, parens, classes =>
    if c = '(' then bracketBalanced rest (parens + 1) classes
    else if c = ')' then (parens != 0) && bracketBalanced rest (parens - 1) classes
    else if c = '[' then bracketBalanced rest parens (classes + 1)
    else if c = ']' then (classes != 0) && bracketBalanced rest parens (classes - 1)
    else bracketBalanced rest parens classes

/-- Modelled from the spec: the regex compiler is an external library, not
implemented by the repository ("the core does not implement its own
regular-expression engine", §1).  `regexNewOk` models which patterns
`Regex::new` accepts, for the concrete patterns appearing here: the empty
pattern and bracket-balanced literal patterns compile (the `regex` crate
accepts the empty pattern, which matches the empty string), unbalanced group
or character-class brackets such as `"[invalid"` do not. -/
def regexNewOk (pattern : String) : Bool := bracketBalanced pattern.toList 0 0

/-- C3 counterexample: `validate_pattern` does NOT reject the empty pattern.
The empty string contains none of the screened substrings and the empty
pattern compiles, so both validators return `Ok(())`, where the claim says
they return an error. -/
theorem C3_counterexample_empty_pattern :
    triggerValidatePattern regexNewOk "" = Except.ok () ∧
    highlightValidatePattern regexNewOk "" = Except.ok () := by
  exact ⟨rfl, rfl⟩

/-- C3 (amended): for every compile oracle, `validate_pattern` (trigger and
highlight alike) returns `Ok` exactly when the pattern contains none of the
substrings `")+"`, `")*"`, `"\x7d+"`, `"\x7d*"` and the pattern compiles; in
particular every unparseable pattern and every back-to-back-quantifier shape
is rejected (which subsumes `(a|a)*`-style overlapping alternations, since
they contain `")*"`/`")+"`), the empty pattern is accepted, and validation is
a total function of the pattern.  The trigger and highlight validators agree
on every input: the trigger's extra overlapping-alternation branch is
unreachable, because its guard requires a substring already rejected by the
first screen. -/
theorem C3_validate_pattern_amended (compiles : String → Bool) (pattern : String) :
    (triggerValidatePattern compiles pattern = Except.ok () ↔
      ((containsSub pattern.toList ")+".toList || containsSub pattern.toList ")*".toList ||
        containsSub pattern.toList "\x7d+".toList || containsSub pattern.toList "\x7d*".toList) = false ∧
       compiles pattern = true)) ∧
    triggerValidatePattern compiles pattern = highlightValidatePattern compiles pattern := by
  constructor
  · unfold triggerValidatePattern
    split
    · rename_i hb
      constructor
      · intro h; exact Except.noConfusion h
      · rintro ⟨hfalse, _⟩
        rw [hb] at hfalse
        exact Bool.noConfusion hfalse
    · rename_i hb
      simp only [Bool.not_eq_true] at hb
      split
      · rename_i hb2
        exfalso
        simp only [Bool.and_eq_true, Bool.or_eq_true] at hb2
        rcases hb2 with ⟨⟨_, hor⟩, _⟩
        rcases hor with h | h
        · rw [h] at hb; simp at hb
        · rw [h] at hb; simp at hb
      · split
        · rename_i hc
          exact ⟨fun _ => ⟨hb, hc⟩, fun _ => rfl⟩
        · rename_i hc
          simp only [Bool.not_eq_true] at hc
          constructor
          · intro h; exact Except.noConfusion h
          · rintro ⟨_, htrue⟩
            rw [hc] at htrue
            exact Bool.noConfusion htrue
  · unfold triggerValidatePattern highlightValidatePattern
    split
    · rfl
    · rename_i hb
      simp only [Bool.not_eq_true] at hb
      split
      · rename_i hb2
        exfalso
        simp only [Bool.and_eq_true, Bool.or_eq_true] at hb2
        rcases hb2 with ⟨⟨_, hor⟩, _⟩
        rcases hor with h | h
        · rw [h] at hb; simp at hb
        · rw [h] at hb; simp at hb
      · rfl

/-! ## Highlights (`automation/highlights.rs`) -/

/-- `Highlight`, minus the random `Uuid` id and the cached compiled regex
(derived state, `#[serde(skip)]`).  The Rust field `variables` is rendered
`varNames` because `variables` is reserved in Lean. -/
structure Highlight where
  name : String
  pattern : String
  color : String
  bold : Bool
  italic : Bool
  underline : Bool
  varNames : List String
  enabled : Bool
deriving DecidableEq

/-- `u8::is_ascii_hexdigit` lifted to `Char` (the Rust code iterates `chars()`
and calls `char::is_ascii_hexdigit`). -/
def isAsciiHexdigit (c : Char) : Bool :=
  c.isDigit || ('a' ≤ c && c ≤ 'f') || ('A' ≤ c && c ≤ 'F')

/-- UTF-8 encoded size of one scalar value (Rust `str::len` counts bytes). -/
def utf8Size (c : Char) : Nat :=
  if c.toNat < 0x80 then 1
  else if c.toNat < 0x800 then 2
  else if c.toNat < 0x10000 then 3
  else 4

/-- `str::len`: UTF-8 byte length. -/
def utf8Len (s : List Char) : Nat := (s.map utf8Size).sum

/-- `Highlight::validate_color`: `#` followed by six hex digits.  The first
check is on the byte length; the slice `color[1..]` starts after the leading
`'#'` (one byte), so it is the tail of the character list. -/
def validateColor (color : String) : Except MushError Unit :=
  if !(color.toList.head? == some '#') || utf8Len color.toList != 7 then
    Except.error (MushError.validationError "color"
      ("Invalid color format: '" ++ color ++ "'. Expected #RRGGBB"))
  else if !(color.toList.tail.all isAsciiHexdigit) then
    Except.error (MushError.validationError "color"
      ("Invalid color format: '" ++ color ++ "'. Expected hex digits"))
  else
    Except.ok ()

/-- `Highlight::new`: validate the pattern, then the color, then construct the
record with the given color stored unchanged. -/
def highlightNew (compiles : String → Bool) (name pattern color : String) :
    Except MushError Highlight :=
  match highlightValidatePattern compiles pattern with
  | Except.error e => Except.error e
  | Except.ok () =>
    match validateColor color with
    | Except.error e => Except.error e
    | Except.ok () =>
      Except.ok { name := name, pattern := pattern, color := color,
                  bold := false, italic := false, underline := false,
                  varNames := [], enabled := true }

theorem utf8Size_eq_one_of_hexdigit (c : Char) (h : isAsciiHexdigit c = true) :
    utf8Size c = 1 := by
  have hlt : c.toNat < 0x80 := by
    unfold isAsciiHexdigit at h
    simp only [Bool.or_eq_true, Bool.and_eq_true, decide_eq_true_eq] at h
    have hv : c.val.toNat ≤ 102 := by
      rcases h with (hd | ⟨h1, h2⟩) | ⟨h1, h2⟩
      · unfold Char.isDigit at hd
        simp only [Bool.and_eq_true, decide_eq_true_eq] at hd
        have h9 : c.val ≤ ('9' : Char).val := hd.2
        have h9' : c.val.toNat ≤ 57 := by exact_mod_cast h9
        omega
      · have hf : c.val ≤ ('f' : Char).val := h2
        have hf' : c.val.toNat ≤ 102 := by exact_mod_cast hf
        omega
      · have hF : c.val ≤ ('F' : Char).val := h2
        have hF' : c.val.toNat ≤ 70 := by exact_mod_cast hF
        omega
    simpa [Char.toNat] using Nat.lt_of_le_of_lt hv (by norm_num)
  simp [utf8Size, hlt]

theorem utf8Len_eq_length_of_all_hex (l : List Char) (h : l.all isAsciiHexdigit = true) :
    utf8Len l = l.length := by
  induction l with
  | nil => rfl
  | cons c rest ih =>
    simp only [List.all_cons, Bool.and_eq_true] at h
    unfold utf8Len at ih ⊢
    simp only [List.map_cons, List.sum_cons, List.length_cons,
      utf8Size_eq_one_of_hexdigit c h.1, ih h.2]
    omega

/-- C10: `Highlight::new` rejects every color that is not `'#'` followed by
exactly six ASCII hex digits, creating no highlight, and a highlight it does
create stores the given color string unchanged. -/
theorem C10_highlight_color :
    (∀ color : String, validateColor color = Except.ok () ↔
      ∃ rest : List Char, color.toList = '#' :: rest ∧ rest.length = 6 ∧
        rest.all isAsciiHexdigit = true) ∧
    (∀ (compiles : String → Bool) (name pattern color : String) (h : Highlight),
      highlightNew compiles name pattern color = Except.ok h → h.color = color) ∧
    (∀ (compiles : String → Bool) (name pattern color : String),
      validateColor color ≠ Except.ok () →
      ∀ h : Highlight, highlightNew compiles name pattern color ≠ Except.ok h) := by
  refine ⟨?_, ?_, ?_⟩
  · intro color
    constructor
    · intro hok
      unfold validateColor at hok
      split at hok
      · exact Except.noConfusion hok
      · split at hok
        · exact Except.noConfusion hok
        · rename_i hcond htail
          simp only [Bool.or_eq_true, Bool.not_eq_true', beq_iff_eq, bne_iff_ne,
            ne_eq, not_or, Bool.not_eq_true, Bool.not_eq_false, not_not] at hcond htail
          obtain ⟨hhead, hlen⟩ := hcond
          cases hl : color.toList with
          | nil => rw [hl] at hhead; exact Option.noConfusion hhead
          | cons c rest =>
            rw [hl] at hhead hlen htail
            simp only [List.head?_cons, Option.some.injEq] at hhead
            subst hhead
            refine ⟨rest, rfl, ?_, ?_⟩
            · have h1 : utf8Len ('#' :: rest) = 1 + utf8Len rest := by
                unfold utf8Len
                simp [utf8Size]
              simp only [List.tail_cons] at htail
              rw [h1, utf8Len_eq_length_of_all_hex rest htail] at hlen
              omega
            · simpa using htail
    · rintro ⟨rest, hl, hlen, hhex⟩
      unfold validateColor
      rw [hl]
      have h1 : utf8Len ('#' :: rest) = 7 := by
        unfold utf8Len
        simp only [List.map_cons, List.sum_cons]
        have := utf8Len_eq_length_of_all_hex rest hhex
        unfold utf8Len at this
        rw [this, hlen]
        simp [utf8Size]
      rw [h1]
      simp [hhex]
  · intro compiles name pattern color h hok
    unfold highlightNew at hok
    split at hok
    · exact Except.noConfusion hok
    · split at hok
      · exact Except.noConfusion hok
      · injection hok with h'
        rw [← h']
  · intro compiles name pattern color hbad h hok
    unfold highlightNew at hok
    split at hok
    · exact Except.noConfusion hok
    · split at hok
      · exact Except.noConfusion hok
      · rename_i hcolor
        exact hbad hcolor

/-- Witness for C10: `"#FF0000"` is accepted, `"#GG0000"` is rejected and
creates no highlight. -/
theorem C10_highlight_color_witness :
    validateColor "#FF0000" = Except.ok () ∧
    (highlightNew (fun _ => true) "Test" "hello" "#GG0000" ≠
      Except.ok { name := "Test", pattern := "hello", color := "#GG0000",
                  bold := false, italic := false, underline := false,
                  varNames := [], enabled := true }) := by
  constructor
  · exact (C10_highlight_color.1 "#FF0000").mpr
      ⟨['F', 'F', '0', '0', '0', '0'], by decide, by decide, by decide⟩
  · exact C10_highlight_color.2.2 (fun _ => true) "Test" "hello" "#GG0000" (by decide) _

/-! ## Actions (`automation/aliases.rs`, `automation/triggers.rs`,
`automation/timers.rs`)

Each rule kind carries a recursive action enum; `execute_action` walks it
depth-first pushing command strings into a `&mut Vec<String>` accumulator.
Only the alias walker substitutes `%0`..`%9` placeholders; the trigger and
timer walkers push command strings verbatim. -/

/-- `AliasAction` (`Sequence` is rendered `seq`). -/
inductive AliasAction where
  | sendCommand (cmd : String)
  | sendCommands (cmds : List String)
  | executeScript (script : String)
  | seq (actions : List AliasAction)

/-- `TriggerAction`. -/
inductive TriggerAction where
  | sendCommand (cmd : String)
  | displayText (text : String)
  | playSound (file : String)
  | executeScript (script : String)
  | seq (actions : List TriggerAction)

/-- `TimerAction`. -/
inductive TimerAction where
  | sendCommand (cmd : String)
  | sendCommands (cmds : List String)
  | executeScript (script : String)
  | seq (actions : List TimerAction)

/-- `Alias::expand_wildcards`: for `i` in `0..=9`, if capture `i` is present,
`str::replace` every occurrence of `%i` by it (the `HashMap` of captures is
embedded as a lookup function). -/
def expandWildcards (captures : String → Option String) (text : String) : String :=
  (List.range 10).foldl
    (fun result i =>
      match captures (toString i) with
      | some value => replaceStr result ("%" ++ toString i) value
      | none => result)
    text

/-- `Alias::execute_action` with its `&mut Vec<String>` accumulator made
explicit. -/
def aliasExecuteAction (captures : String → Option String) :
    AliasAction → List String → List String
  | .sendCommand cmd, commands => commands ++ [expandWildcards captures cmd]
  | .sendCommands cmds, commands =>
      cmds.foldl (fun acc cmd => acc ++ [expandWildcards captures cmd]) commands
  | .executeScript _, commands => commands
  | .seq [], commands => commands
  | .seq (a :: rest), commands =>
      aliasExecuteAction captures (.seq rest) (aliasExecuteAction captures a commands)

/-- `Trigger::execute_action`: note there is no capture argument and no
placeholder substitution; `DisplayText`, `PlaySound` and `ExecuteScript`
generate no commands. -/
def triggerExecuteAction : TriggerAction → List String → List String
  | .sendCommand cmd, commands => commands ++ [cmd]
  | .displayText _, commands => commands
  | .playSound _, commands => commands
  | .executeScript _, commands => commands
  | .seq [], commands => commands
  | .seq (a :: rest), commands =>
      triggerExecuteAction (.seq rest) (triggerExecuteAction a commands)

/-- `Trigger::execute`. -/
def triggerExecute (action : TriggerAction) : List String :=
  triggerExecuteAction action []

/-- `Timer::execute_action` (verbatim pushes, like the trigger's). -/
def timerExecuteAction : TimerAction → List String → List String
  | .sendCommand cmd, commands => commands ++ [cmd]
  | .sendCommands cmds, commands => cmds.foldl (fun acc cmd => acc ++ [cmd]) commands
  | .executeScript _, commands => commands
  | .seq [], commands => commands
  | .seq (a :: rest), commands =>
      timerExecuteAction (.seq rest) (timerExecuteAction a commands)

/-- Specification-level reading of the alias walk: depth-first,
left-to-right, substituted commands, scripts contribute nothing, sequences
concatenate. -/
def aliasActionCommands (captures : String → Option String) : AliasAction → List String
  | .sendCommand cmd => [expandWildcards captures cmd]
  | .sendCommands cmds => cmds.map (expandWildcards captures)
  | .executeScript _ => []
  | .seq [] => []
  | .seq (a :: rest) =>
      aliasActionCommands captures a ++ aliasActionCommands captures (.seq rest)

/-- Specification-level reading of the trigger walk: verbatim commands. -/
def triggerActionCommands : TriggerAction → List String
  | .sendCommand cmd => [cmd]
  | .displayText _ => []
  | .playSound _ => []
  | .executeScript _ => []
  | .seq [] => []
  | .seq (a :: rest) => triggerActionCommands a ++ triggerActionCommands (.seq rest)

theorem foldl_append_singleton {α β : Type} (f : α → β) (l : List α) :
    ∀ acc : List β, l.foldl (fun a c => a ++ [f c]) acc = acc ++ l.map f := by
  induction l with
  | nil => intro acc; simp
  | cons x xs ih => intro acc; simp [List.foldl_cons, ih, List.append_assoc]

theorem aliasExecuteAction_eq (captures : String → Option String) :
    ∀ (a : AliasAction) (acc : List String),
      aliasExecuteAction captures a acc = acc ++ aliasActionCommands captures a
  | .sendCommand cmd, acc => by
      simp [aliasExecuteAction, aliasActionCommands]
  | .sendCommands cmds, acc => by
      simp [aliasExecuteAction, aliasActionCommands, foldl_append_singleton]
  | .executeScript s, acc => by
      simp [aliasExecuteAction, aliasActionCommands]
  | .seq [], acc => by
      simp [aliasExecuteAction, aliasActionCommands]
  | .seq (a :: rest), acc => by
      rw [show aliasExecuteAction captures (.seq (a :: rest)) acc =
          aliasExecuteAction captures (.seq rest) (aliasExecuteAction captures a acc) from
        by simp [aliasExecuteAction]]
      rw [aliasExecuteAction_eq captures a acc,
        aliasExecuteAction_eq captures (.seq rest) (acc ++ aliasActionCommands captures a)]
      simp [aliasActionCommands, List.append_assoc]

theorem triggerExecuteAction_eq :
    ∀ (a : TriggerAction) (acc : List String),
      triggerExecuteAction a acc = acc ++ triggerActionCommands a
  | .sendCommand cmd, acc => by simp [triggerExecuteAction, triggerActionCommands]
  | .displayText t, acc => by simp [triggerExecuteAction, triggerActionCommands]
  | .playSound f, acc => by simp [triggerExecuteAction, triggerActionCommands]
  | .executeScript s, acc => by simp [triggerExecuteAction, triggerActionCommands]
  | .seq [], acc => by simp [triggerExecuteAction, triggerActionCommands]
  | .seq (a :: rest), acc => by
      rw [show triggerExecuteAction (.seq (a :: rest)) acc =
          triggerExecuteAction (.seq rest) (triggerExecuteAction a acc) from
        by simp [triggerExecuteAction]]
      rw [triggerExecuteAction_eq a acc,
        triggerExecuteAction_eq (.seq rest) (acc ++ triggerActionCommands a)]
      simp [triggerActionCommands, List.append_assoc]

/-- C4 counterexample: `Trigger::execute_action` performs no placeholder
substitution (its signature does not even receive the captures), so a trigger
emit-command action with a `%1` placeholder and a matching capture emits
`"say %1"` verbatim where the claim requires `"say x"`. -/
theorem C4_counterexample_trigger_substitution :
    triggerExecute (TriggerAction.sendCommand "say %1") = ["say %1"] ∧
    expandWildcards (fun k => if k = "1" then some "x" else none) "say %1" = "say x" ∧
    ("say %1" : String) ≠ "say x" := by
  refine ⟨?_, ?_, by decide⟩
  · simp [triggerExecute, triggerExecuteAction]
  · decide

/-- C4 (amended): every execute walk is depth-first and left-to-right —
emit-command/emit-list contribute their command strings, invoke-script (and
the trigger's display/sound actions) contribute none, and a sequence
contributes the concatenation of its children's results in order; the ALIAS
walk substitutes `%0`..`%9` placeholders (a placeholder with no matching
capture is left verbatim), while the TRIGGER walk emits command strings
verbatim, with no substitution. -/
theorem C4_execute_walk_amended :
    (∀ (captures : String → Option String) (a : AliasAction) (acc : List String),
      aliasExecuteAction captures a acc = acc ++ aliasActionCommands captures a) ∧
    (∀ (a : TriggerAction) (acc : List String),
      triggerExecuteAction a acc = acc ++ triggerActionCommands a) ∧
    (∀ text : String, expandWildcards (fun _ => none) text = text) := by
  refine ⟨aliasExecuteAction_eq, triggerExecuteAction_eq, ?_⟩
  intro text
  unfold expandWildcards
  simp

/-! ## Alias manager (`automation/aliases.rs`) -/

/-- `Alias`: name, compiled matcher and capture extractor (both functions of
the external regex engine, standing for the compiled `pattern`), action and
enabled flag; the random `Uuid` id and the `Regex` cache are omitted. -/
structure Alias where
  name : String
  isMatch : String → Bool
  captures : String → (String → Option String)
  action : AliasAction
  enabled : Bool

/-- `AliasManager::find_match`: first enabled alias whose pattern matches, in
insertion order. -/
def findMatch : List Alias → String → Option Alias
  | [], _ => none
  | a :: rest, text =>
    if a.enabled && a.isMatch text then some a else findMatch rest text

/-- C7: alias matching is first-match-wins in insertion order: `find_match`
is exactly `find?` of the enabled-and-matching predicate over the insertion
list, and the result of an enabled matching alias is independent of every
alias inserted after it (their patterns are never consulted). -/
theorem C7_alias_first_match :
    (∀ (aliases : List Alias) (text : String),
      findMatch aliases text = aliases.find? (fun a => a.enabled && a.isMatch text)) ∧
    (∀ (pre : List Alias) (a : Alias) (post : List Alias) (text : String),
      a.enabled = true → a.isMatch text = true →
      (∀ b ∈ pre, ¬(b.enabled = true ∧ b.isMatch text = true)) →
      findMatch (pre ++ a :: post) text = some a) := by
  constructor
  · intro aliases text
    induction aliases with
    | nil => rfl
    | cons hd tl ih =>
      by_cases h : (hd.enabled && hd.isMatch text) = true
      · simp [findMatch, h, List.find?_cons_of_pos]
      · simp only [Bool.not_eq_true] at h
        simp [findMatch, h, List.find?_cons_of_neg, ih]
  · intro pre a post text ha hm hpre
    induction pre with
    | nil => simp [findMatch, ha, hm]
    | cons b rest ih =>
      have hb := hpre b (List.mem_cons_self b rest)
      have hcond : (b.enabled && b.isMatch text) = false := by
        cases hE : b.enabled with
        | false => simp
        | true =>
          cases hM : b.isMatch text with
          | false => simp
          | true => exact absurd ⟨hE, hM⟩ hb
      simp only [List.cons_append, findMatch, hcond, Bool.false_eq_true, if_false]
      exact ih fun b' hb' => hpre b' (List.mem_cons_of_mem b hb')

/-- The "get gold" alias of the spec's example (matcher standing for the
compiled `^gg$`). -/
def aliasGG : Alias :=
  { name := "Get Gold", isMatch := fun s => s == "gg", captures := fun _ _ => none,
    action := AliasAction.sendCommand "get gold", enabled := true }

/-- The "get all" alias of the spec's example (matcher standing for the
compiled `^ga$`). -/
def aliasGA : Alias :=
  { name := "Get All", isMatch := fun s => s == "ga", captures := fun _ _ => none,
    action := AliasAction.sendCommand "get all", enabled := true }

/-- Witness for C7 on the spec's example: with `^gg$` then `^ga$` inserted in
that order, input `"gg"` selects exactly the first alias. -/
theorem C7_alias_first_match_witness :
    findMatch [aliasGG, aliasGA] "gg" = some aliasGG := by
  exact C7_alias_first_match.2 [] aliasGG [aliasGA] "gg" rfl (by decide)
    (by intro b hb; cases hb)

/-! ## Trigger manager (`automation/triggers.rs`) -/

/-- `Trigger`: name, compiled matcher (external regex engine), action and
enabled flag; `Uuid` id and `Regex` cache omitted. -/
structure Trigger where
  name : String
  isMatch : String → Bool
  action : TriggerAction
  enabled : Bool

/-- The push loop of `TriggerManager::find_matches`. -/
def findMatchesLoop (text : String) : List Trigger → List Trigger → List Trigger
  | [], acc => acc
  | t :: rest, acc =>
    if t.enabled && t.isMatch text then findMatchesLoop text rest (acc ++ [t])
    else findMatchesLoop text rest acc

/-- `TriggerManager::find_matches`. -/
def findMatches (triggers : List Trigger) (text : String) : List Trigger :=
  findMatchesLoop text triggers []

theorem findMatchesLoop_eq (text : String) :
    ∀ (ts acc : List Trigger),
      findMatchesLoop text ts acc = acc ++ ts.filter (fun t => t.enabled && t.isMatch text) := by
  intro ts
  induction ts with
  | nil => intro acc; simp [findMatchesLoop]
  | cons t rest ih =>
    intro acc
    by_cases h : (t.enabled && t.isMatch text) = true
    · simp [findMatchesLoop, h, ih, List.filter_cons_of_pos, List.append_assoc]
    · simp only [Bool.not_eq_true] at h
      simp [findMatchesLoop, h, ih, List.filter_cons_of_neg]

/-- C8: trigger matching returns all matches: `find_matches` is exactly the
order-preserving filter of the enabled-and-matching triggers, membership is
enabled-and-matching membership, and two enabled matching triggers both
appear, in insertion order. -/
theorem C8_trigger_all_matches :
    (∀ (triggers : List Trigger) (text : String),
      findMatches triggers text = triggers.filter (fun t => t.enabled && t.isMatch text)) ∧
    (∀ (triggers : List Trigger) (text : String) (t : Trigger),
      t ∈ findMatches triggers text ↔
        t ∈ triggers ∧ (t.enabled && t.isMatch text) = true) ∧
    (∀ (pre mid post : List Trigger) (t1 t2 : Trigger) (text : String),
      t1.enabled = true → t1.isMatch text = true →
      t2.enabled = true → t2.isMatch text = true →
      findMatches (pre ++ t1 :: mid ++ t2 :: post) text =
        (pre.filter (fun t => t.enabled && t.isMatch text)) ++ t1 ::
        (mid.filter (fun t => t.enabled && t.isMatch text)) ++ t2 ::
        (post.filter (fun t => t.enabled && t.isMatch text))) := by
  have hfilter : ∀ (triggers : List Trigger) (text : String),
      findMatches triggers text = triggers.filter (fun t => t.enabled && t.isMatch text) := by
    intro triggers text
    rw [findMatches, findMatchesLoop_eq]
    simp
  refine ⟨hfilter, ?_, ?_⟩
  · intro triggers text t
    rw [hfilter]
    simp [List.mem_filter]
  · intro pre mid post t1 t2 text h1 h2 h3 h4
    rw [hfilter]
    simp [List.filter_append, List.filter_cons, h1, h2, h3, h4]

/-- First trigger of the spec's `"HP: 100/100"` example (matcher standing for
the compiled `^HP: (\d+)/(\d+)`). -/
def triggerHPFull : Trigger :=
  { name := "HP Trigger", isMatch := fun s => s == "HP: 100/100",
    action := TriggerAction.displayText "HP updated", enabled := true }

/-- Second trigger of the spec's `"HP: 100/100"` example. -/
def triggerHPWatch : Trigger :=
  { name := "HP Watch", isMatch := fun s => s == "HP: 100/100",
    action := TriggerAction.sendCommand "score", enabled := true }

/-- Witness for C8: both triggers matching `"HP: 100/100"` appear in
`find_matches`, in insertion order. -/
theorem C8_trigger_all_matches_witness :
    findMatches [triggerHPFull, triggerHPWatch] "HP: 100/100" =
      [triggerHPFull, triggerHPWatch] := by
  have h := C8_trigger_all_matches.2.2 [] [] [] triggerHPFull triggerHPWatch "HP: 100/100"
    rfl (by decide) rfl (by decide)
  simpa using h

/-! ## Timers (`automation/timers.rs`)

`Instant::now()` is made an explicit `now : Nat` argument at each call the
Rust code makes; `Duration::from_secs_f64(interval)` is abstracted to the
tick count `interval` (the claims depend only on the scheduling control flow,
not on the float-to-duration conversion). -/

/-- `TimerType`. -/
inductive TimerType where
  | oneShot
  | repeating
deriving DecidableEq

/-- `Timer`, with `next_fire : Option<Instant>` as `Option Nat` and the
random `Uuid` id omitted. -/
structure Timer where
  name : String
  timerType : TimerType
  interval : Nat
  action : TimerAction
  enabled : Bool
  nextFire : Option Nat
  hasFired : Bool

/-- `Timer::start`. -/
def timerStart (now : Nat) (t : Timer) : Timer :=
  { t with nextFire := some (now + t.interval), hasFired := false }

/-- `Timer::reset`. -/
def timerReset (now : Nat) (t : Timer) : Timer :=
  if t.timerType = TimerType.repeating then
    { t with nextFire := some (now + t.interval) }
  else
    { t with hasFired := true, nextFire := none }

/-- `Timer::should_fire`. -/
def shouldFire (now : Nat) (t : Timer) : Bool :=
  if !t.enabled then false
  else if t.timerType == TimerType.oneShot && t.hasFired then false
  else
    match t.nextFire with
    | some nf => decide (nf ≤ now)
    | none => false

/-- `Timer::execute`: build the command list, then reset. -/
def timerExecute (now : Nat) (t : Timer) : List String × Timer :=
  (timerExecuteAction t.action [], timerReset now t)

/-- C9: a one-shot timer fires at most once per activation — after `execute`
it is never ready again, at any later instant, until `start` re-arms it —
and a repeating timer's next-fire instant is set to `now + interval` at the
moment `execute` runs, before any of the produced commands are processed. -/
theorem C9_timer_invariants :
    (∀ (t : Timer) (now now' : Nat), t.timerType = TimerType.oneShot →
      shouldFire now' (timerExecute now t).2 = false) ∧
    (∀ (t : Timer) (now : Nat), t.timerType = TimerType.repeating →
      (timerExecute now t).2.nextFire = some (now + t.interval)) ∧
    (∀ (t : Timer) (now now' : Nat), t.enabled = true →
      shouldFire (now' + t.interval) (timerStart now' (timerExecute now t).2) = true) := by
  refine ⟨?_, ?_, ?_⟩
  · intro t now now' h
    have hne : ¬(t.timerType = TimerType.repeating) := by rw [h]; intro hc; cases hc
    simp [timerExecute, timerReset, hne, shouldFire]
  · intro t now h
    simp [timerExecute, timerReset, h]
  · intro t now now' h
    rcases hty : t.timerType with _ | _
    · have hne : ¬(t.timerType = TimerType.repeating) := by rw [hty]; intro hc; cases hc
      simp [timerExecute, timerReset, hne, timerStart, shouldFire, h]
    · simp [timerExecute, timerReset, hty, timerStart, shouldFire, h]

/-- A concrete one-shot timer for the C9 witness. -/
def timerHealOnce : Timer :=
  { name := "Heal", timerType := TimerType.oneShot, interval := 5,
    action := TimerAction.sendCommand "heal", enabled := true,
    nextFire := some 5, hasFired := false }

/-- A concrete repeating timer for the C9 witness. -/
def timerHeartbeat : Timer :=
  { name := "Heartbeat", timerType := TimerType.repeating, interval := 7,
    action := TimerAction.sendCommand "look", enabled := true,
    nextFire := some 7, hasFired := false }

/-- Witness for C9 at concrete timers and instants. -/
theorem C9_timer_invariants_witness :
    shouldFire 1000 (timerExecute 10 timerHealOnce).2 = false ∧
    (timerExecute 10 timerHeartbeat).2.nextFire = some 17 ∧
    shouldFire (20 + 5) (timerStart 20 (timerExecute 10 timerHealOnce).2) = true := by
  refine ⟨C9_timer_invariants.1 timerHealOnce 10 1000 rfl, ?_, ?_⟩
  · have h := C9_timer_invariants.2.1 timerHeartbeat 10 rfl
    simpa using h
  · exact C9_timer_invariants.2.2 timerHealOnce 10 20 rfl

/-! ## MCCP compression handler (`network/mccp.rs`)

The zlib streams of the `flate2` crate are external; their presence is
tracked as Booleans (`Option<ZlibDecoder>` / `Option<ZlibEncoder>`) and the
outcome of feeding a chunk through the decompressor enters `receive` as an
explicit `Except` argument. -/

/-- `CompressionState`. -/
inductive CompressionState where
  | none
  | negotiated
  | active
deriving DecidableEq

/-- `MccpHandler`. -/
structure MccpHandler where
  rxState : CompressionState
  txState : CompressionState
  decompressor : Bool
  compressor : Bool
  decompressBuffer : List Nat
deriving DecidableEq

/-- `MccpHandler::new`. -/
def mccpNew : MccpHandler :=
  { rxState := CompressionState.none, txState := CompressionState.none,
    decompressor := false, compressor := false, decompressBuffer := [] }

/-- `MccpHandler::handle_mccp2_will`: go to `Negotiated` and reply
IAC DO COMPRESS2. -/
def handleMccp2Will (m : MccpHandler) : MccpHandler × List Nat :=
  ({ m with rxState := CompressionState.negotiated }, [255, 253, 86])

/-- `MccpHandler::handle_mccp2_subnegotiation`: go to `Active` and build the
decompressor. -/
def handleMccp2Subnegotiation (m : MccpHandler) : MccpHandler :=
  { m with rxState := CompressionState.active,
           decompressor := true,
           decompressBuffer := [] }

/-- `MccpHandler::handle_mccp3_will`: reply IAC DO COMPRESS3, IAC SB
COMPRESS3, IAC SE. -/
def handleMccp3Will (m : MccpHandler) : MccpHandler × List Nat :=
  ({ m with txState := CompressionState.negotiated },
   [255, 253, 87, 255, 250, 87, 255, 240])

/-- `MccpHandler::start_mccp3`. -/
def startMccp3 (m : MccpHandler) : MccpHandler :=
  { m with txState := CompressionState.active, compressor := true }

/-- `MccpHandler::is_receiving_compressed`. -/
def isReceivingCompressed (m : MccpHandler) : Bool :=
  m.rxState == CompressionState.active

/-- `MccpHandler::disable_mccp2`: force the receive direction back to `None`,
drop the decompressor, and reply IAC DONT COMPRESS2 (bytes 255, 254, 86). -/
def disableMccp2 (m : MccpHandler) : MccpHandler × List Nat :=
  ({ m with rxState := CompressionState.none,
            decompressor := false,
            decompressBuffer := [] }, [255, 254, 86])

/-- `MccpHandler::decompress`: pass-through unless `Active`; error when the
decompressor is absent; otherwise the outcome of the external zlib stream on
this chunk (the `zlib` argument). -/
def mccpDecompress (m : MccpHandler) (data : List Nat)
    (zlib : Except String (List Nat)) : Except String (List Nat) :=
  if !(isReceivingCompressed m) then Except.ok data
  else if !m.decompressor then Except.error "No decompressor initialized"
  else zlib

/-! ## Connection (`core/connection.rs`) -/

/-- `windows(2).position(|w| w == [IAC, SE])`: first index of an adjacent
`[255, 240]` pair. -/
def findIacSe : List Nat → Option Nat
  | [] => Option.none
  | [_] => Option.none
  | a :: b :: rest =>
    if a = 255 ∧ b = 240 then some 0 else (findIacSe (b :: rest)).map (· + 1)

/-- The scan loop of `Connection::process_telnet`, with the cursor `i` made
structural: `acc` holds `data[..i]`, `rest` holds `data[i..]`, and each
`data.drain(..)` + `continue` becomes a recursive call on a shortened `rest`.
The guard `data[i] == IAC && i + 2 < data.len()` is the first match arm (an
IAC without two following bytes falls through to `i += 1` and is KEPT in the
data); only `WILL 86`, a complete `SB 86 … IAC SE` block, and `WILL 87` are
recognized and drained.  Fuel is the chunk length plus one: every step
shortens `rest`. -/
def ptLoop : Nat → MccpHandler → List Nat → List (List Nat) → List Nat →
    List Nat × List (List Nat) × MccpHandler
  | 0, m, acc, resps, rest => (acc ++ rest, resps, m)
  | fuel + 1, m, acc, resps, rest =>
    match rest with
    | 255 :: cmd :: opt :: t =>
      if cmd = 251 ∧ opt = 86 then
        let r := handleMccp2Will m
        ptLoop fuel r.1 acc (resps ++ [r.2]) t
      else if cmd = 250 ∧ opt = 86 then
        match findIacSe t with
        | some p => ptLoop fuel (handleMccp2Subnegotiation m) acc resps (t.drop (p + 2))
        | Option.none => ptLoop fuel m (acc ++ [255]) resps (cmd :: opt :: t)
      else if cmd = 251 ∧ opt = 87 then
        let r := handleMccp3Will m
        ptLoop fuel (startMccp3 r.1) acc (resps ++ [r.2]) t
      else ptLoop fuel m (acc ++ [255]) resps (cmd :: opt :: t)
    | b :: t => ptLoop fuel m (acc ++ [b]) resps t
    | [] => (acc, resps, m)

/-- `Connection::process_telnet` on one chunk: returns the data handed on to
the text pipeline, the replies sent to the peer, and the updated handler. -/
def processTelnet (m : MccpHandler) (data : List Nat) :
    List Nat × List (List Nat) × MccpHandler :=
  ptLoop (data.length + 1) m [] [] data

/-- `Connection`: the MCCP handler together with the `telnet_buffer` field
declared at `connection.rs:18`.  No method of `Connection` ever reads or
writes `telnet_buffer`. -/
structure ConnectionSt where
  mccp : MccpHandler
  telnetBuffer : List Nat
deriving DecidableEq

/-- The successful-read path of `Connection::receive`: decompress while MCCP2
is active (disabling MCCP2 and sending its reply on a decode failure), then
`process_telnet`.  Returns the data handed to the session, the replies sent,
and the updated connection.  (`client.send` failures are transport errors
outside this claim's scope and are not modelled.) -/
def receiveOk (c : ConnectionSt) (data : List Nat)
    (zlib : Except String (List Nat)) : List Nat × List (List Nat) × ConnectionSt :=
  let step1 :=
    if isReceivingCompressed c.mccp then
      match mccpDecompress c.mccp data zlib with
      | Except.ok decompressed =>
        (if decompressed.isEmpty then data else decompressed, ([] : List (List Nat)), c.mccp)
      | Except.error _ =>
        let r := disableMccp2 c.mccp
        (data, [r.2], r.1)
    else (data, ([] : List (List Nat)), c.mccp)
  let step2 := processTelnet step1.2.2 step1.1
  (step2.1, step1.2.1 ++ step2.2.1, { mccp := step2.2.2, telnetBuffer := c.telnetBuffer })

/-- C1 (code bug): control sequences are neither fully stripped nor buffered
across chunk boundaries.  A chunk ending in the escape byte 255 passes the
bare 255 through to the text pipeline; the continuation bytes `[251, 86]`
arriving in the next chunk also pass through, so a split `IAC WILL 86` is
never recombined (the declared `telnet_buffer` is never touched by any
method: the final conjunct shows it unchanged for EVERY input).  A non-MCCP
control sequence such as `IAC WILL 1` also reaches the text pipeline intact,
though a complete `IAC WILL 86` in a single chunk is stripped and answered. -/
theorem C1_split_sequence_passthrough :
    processTelnet mccpNew [72, 105, 255] = ([72, 105, 255], [], mccpNew) ∧
    processTelnet mccpNew [251, 86] = ([251, 86], [], mccpNew) ∧
    processTelnet mccpNew [255, 251, 1] = ([255, 251, 1], [], mccpNew) ∧
    processTelnet mccpNew [255, 251, 86] =
      ([], [[255, 253, 86]],
       { mccpNew with rxState := CompressionState.negotiated }) ∧
    (∀ (c : ConnectionSt) (data : List Nat) (zlib : Except String (List Nat)),
      (receiveOk c data zlib).2.2.telnetBuffer = c.telnetBuffer) := by
  refine ⟨by decide, by decide, by decide, by decide, ?_⟩
  intro c data zlib
  rfl

/-- C2: a decompression failure while receive-direction compression is Active
is not propagated: `disable_mccp2` forces the receive state back to `None`,
the disable reply (bytes 255, 254, 86) is the first thing sent to the peer,
and `receive` continues the pipeline (telnet processing and all) with
compression off. -/
theorem C2_decompression_failure_recovery (m : MccpHandler) (buf data : List Nat)
    (e : String) (h1 : m.rxState = CompressionState.active) (h2 : m.decompressor = true) :
    (disableMccp2 m).1.rxState = CompressionState.none ∧
    (receiveOk { mccp := m, telnetBuffer := buf } data (Except.error e)).2.1.head? =
      some [255, 254, 86] ∧
    receiveOk { mccp := m, telnetBuffer := buf } data (Except.error e) =
      ((processTelnet (disableMccp2 m).1 data).1,
       [255, 254, 86] :: (processTelnet (disableMccp2 m).1 data).2.1,
       { mccp := (processTelnet (disableMccp2 m).1 data).2.2, telnetBuffer := buf }) := by
  have hrx : isReceivingCompressed m = true := by
    simp [isReceivingCompressed, h1]
  have hdec : mccpDecompress m data (Except.error e) = Except.error e := by
    simp [mccpDecompress, hrx, h2]
  refine ⟨rfl, ?_, ?_⟩
  · simp [receiveOk, hrx, hdec, disableMccp2]
  · simp [receiveOk, hrx, hdec, disableMccp2]

/-- A handler with receive-direction compression active, for the C2
witness. -/
def mccpActiveRx : MccpHandler :=
  { rxState := CompressionState.active, txState := CompressionState.none,
    decompressor := true, compressor := false, decompressBuffer := [] }

/-- Witness for C2 at a concrete active handler and corrupted chunk. -/
theorem C2_decompression_failure_recovery_witness :
    (disableMccp2 mccpActiveRx).1.rxState = CompressionState.none ∧
    (receiveOk { mccp := mccpActiveRx, telnetBuffer := [] } [9, 9, 9]
      (Except.error "corrupt deflate stream")).2.1.head? = some [255, 254, 86] := by
  have h := C2_decompression_failure_recovery mccpActiveRx [] [9, 9, 9]
    "corrupt deflate stream" rfl rfl
  exact ⟨h.1, h.2.1⟩

/-! ## Session outbound pipeline (`core/session.rs`)

`Session::send_command` records history, attempts speedwalk expansion, and
hands each resulting command to `process_command_internal`, which does alias
matching, script execution and transport sends.  The embedding produces the
ordered trace of published events and sent commands.  The Lua runtime plus
`WorldApi::drain_command_queue` enter as the `runScript` oracle: the error of
`lua_runtime.execute`, or the commands the script queued via `world.Send()`.
Transport sends and the command history are outside the claim and are not
modelled (`connection.send_command` succeeds, emitting `CommandSent`). -/

/-- The events of `process_command_internal`'s slice of the pipeline. -/
inductive SessionEvent where
  | aliasMatched (aliasName input : String)
  | aliasError (aliasName err : String)
  | aliasExecuted (aliasName : String) (commands : List String)
  | commandSent (command : String)
deriving DecidableEq

/-- `Alias::execute`: the command list from the action walk under the
captures the compiled regex extracts from this input. -/
def aliasExecute (al : Alias) (input : String) : List String :=
  aliasExecuteAction (al.captures input) al.action []

/-- The `script_opt` extraction of `process_command_internal`: a top-level
`ExecuteScript`, or the first `ExecuteScript` among the top-level entries of
a `Sequence`. -/
def extractAliasScript : AliasAction → Option String
  | AliasAction.executeScript script => some script
  | AliasAction.seq actions =>
    actions.findSome? (fun a =>
      match a with
      | AliasAction.executeScript script => some script
      | _ => Option.none)
  | _ => Option.none

/-- Session configuration: the alias list, the speedwalk config, and the
scripting-sandbox oracle. -/
structure SessionCfg where
  aliases : List Alias
  speedwalk : SpeedwalkConfig
  runScript : String → Except String (List String)

/-- `Connection::send_command` as observed by the session. -/
def sendConn (command : String) : List SessionEvent :=
  [SessionEvent.commandSent command]

/-- `Session::process_command_internal`.  The recursion on script-queued
commands (`Box::pin(self.process_command_internal(&cmd)).await`) is awaited
command by command, so the trace is the depth-first concatenation; `fuel`
bounds the unfolding depth (the Rust recursion is unbounded, spec §9).  Note
the recursive re-entry is into `process_command_internal` itself — history
recording and speedwalk expansion, which live in `send_command`, are NOT
re-applied to queued commands. -/
def processCommandInternal (cfg : SessionCfg) : Nat → String → List SessionEvent
  | 0, _ => []
  | fuel + 1, input =>
    match findMatch cfg.aliases input with
    | Option.none => sendConn input
    | some al =>
      SessionEvent.aliasMatched al.name input ::
      ((match extractAliasScript al.action with
        | Option.none => []
        | some script =>
          match cfg.runScript script with
          | Except.ok queued =>
            queued.foldl (fun acc q => acc ++ processCommandInternal cfg fuel q) []
          | Except.error err =>
            [SessionEvent.aliasError al.name ("Script error: " ++ err)]) ++
       (if (aliasExecute al input).isEmpty then []
        else
          SessionEvent.aliasExecuted al.name (aliasExecute al input) ::
          (aliasExecute al input).foldl (fun acc c => acc ++ sendConn c) []))

/-- `Session::send_command`, minus the history recording: speedwalk
expansion, then `process_command_internal` on each expanded command (or on
the input itself). -/
def sendCommandOuter (cfg : SessionCfg) (fuel : Nat) (input : String) :
    List SessionEvent :=
  match tryExpand cfg.speedwalk input with
  | some cmds => cmds.foldl (fun acc c => acc ++ processCommandInternal cfg fuel c) []
  | Option.none => processCommandInternal cfg fuel input

theorem foldl_append_eq_flatten {α β : Type} (f : α → List β) :
    ∀ (l : List α) (acc : List β),
      l.foldl (fun acc a => acc ++ f a) acc = acc ++ (l.map f).flatten := by
  intro l
  induction l with
  | nil => intro acc; simp
  | cons x xs ih => intro acc; simp [List.foldl_cons, ih, List.append_assoc]

/-- The alias configured for the C5 counterexample: matcher standing for the
compiled `^go$`, with a script-only action. -/
def aliasGo : Alias :=
  { name := "Go", isMatch := fun s => s == "go", captures := fun _ _ => Option.none,
    action := AliasAction.executeScript "queue-2n-script", enabled := true }

/-- The C5 counterexample session: default speedwalk (enabled), one alias,
and a sandbox oracle under which the alias's script queues the single
command `"2n"`. -/
def cfgC5 : SessionCfg :=
  { aliases := [aliasGo],
    speedwalk := defaultSpeedwalk,
    runScript := fun s => if s = "queue-2n-script" then Except.ok ["2n"] else Except.ok [] }

/-- C5 counterexample: a script-queued command does NOT re-enter the pipeline
at the macro-expansion step.  The script of alias `^go$` queues `"2n"`, a
speedwalk token that step 2 would expand to `["north", "north"]`; the code
re-enters at `process_command_internal`, finds no alias match and sends the
literal `"2n"` as one command. -/
theorem C5_counterexample_speedwalk_bypass :
    sendCommandOuter cfgC5 2 "go" =
      [SessionEvent.aliasMatched "Go" "go", SessionEvent.commandSent "2n"] ∧
    tryExpand defaultSpeedwalk "2n" = some ["north", "north"] ∧
    SessionEvent.commandSent "2n" ≠ SessionEvent.commandSent "north" := by
  refine ⟨?_, by decide, by decide⟩
  have hexp : tryExpand cfgC5.speedwalk "go" = Option.none := by decide
  have hmatch : findMatch cfgC5.aliases "go" = some aliasGo := by
    simp [cfgC5, findMatch, aliasGo]
  have hnomatch : findMatch cfgC5.aliases "2n" = Option.none := by
    simp [cfgC5, findMatch, aliasGo]
  have hrun : cfgC5.runScript "queue-2n-script" = Except.ok ["2n"] := by decide
  have hexec : aliasExecute aliasGo "go" = [] := by
    simp [aliasExecute, aliasGo, aliasExecuteAction]
  have hname : aliasGo.name = "Go" := rfl
  have haction : aliasGo.action = AliasAction.executeScript "queue-2n-script" := rfl
  unfold sendCommandOuter
  rw [hexp]
  simp [processCommandInternal, hmatch, hnomatch, hname, haction, extractAliasScript,
    hrun, hexec, sendConn]

/-- C5 (amended): a command queued by an alias's script re-enters the
outbound pipeline at the ALIAS-MATCHING step (step 3), synchronously and
depth-first, before the producing call returns: the parent trace is exactly
`AliasMatched`, then the complete concatenated traces of
`process_command_internal` on each queued command in queue order, then the
parent alias's own `AliasExecuted`/sends — so every queued command's full
effect trace is embedded in the parent trace (third conjunct).  Macro
(speedwalk) expansion does NOT re-apply: a queued command that no alias
matches is sent verbatim as one command even when it is a valid speedwalk
sequence (first conjunct). -/
theorem C5_script_reentry_amended :
    (∀ (cfg : SessionCfg) (fuel : Nat) (input : String) (exp : List String),
      findMatch cfg.aliases input = Option.none →
      tryExpand cfg.speedwalk input = some exp →
      processCommandInternal cfg (fuel + 1) input = [SessionEvent.commandSent input]) ∧
    (∀ (cfg : SessionCfg) (fuel : Nat) (input script : String) (al : Alias)
        (queued : List String),
      findMatch cfg.aliases input = some al →
      extractAliasScript al.action = some script →
      cfg.runScript script = Except.ok queued →
      processCommandInternal cfg (fuel + 1) input =
        SessionEvent.aliasMatched al.name input ::
        ((queued.map (processCommandInternal cfg fuel)).flatten ++
         (if (aliasExecute al input).isEmpty then []
          else
            SessionEvent.aliasExecuted al.name (aliasExecute al input) ::
            (aliasExecute al input).foldl (fun acc c => acc ++ sendConn c) []))) ∧
    (∀ (cfg : SessionCfg) (fuel : Nat) (input script : String) (al : Alias)
        (queued : List String) (q : String),
      findMatch cfg.aliases input = some al →
      extractAliasScript al.action = some script →
      cfg.runScript script = Except.ok queued →
      q ∈ queued →
      ∃ l r, processCommandInternal cfg (fuel + 1) input =
        l ++ processCommandInternal cfg fuel q ++ r) := by
  have hpart2 : ∀ (cfg : SessionCfg) (fuel : Nat) (input script : String) (al : Alias)
      (queued : List String),
      findMatch cfg.aliases input = some al →
      extractAliasScript al.action = some script →
      cfg.runScript script = Except.ok queued →
      processCommandInternal cfg (fuel + 1) input =
        SessionEvent.aliasMatched al.name input ::
        ((queued.map (processCommandInternal cfg fuel)).flatten ++
         (if (aliasExecute al input).isEmpty then []
          else
            SessionEvent.aliasExecuted al.name (aliasExecute al input) ::
            (aliasExecute al input).foldl (fun acc c => acc ++ sendConn c) [])) := by
    intro cfg fuel input script al queued hmatch hscript hrun
    simp only [processCommandInternal, hmatch, hscript, hrun]
    rw [foldl_append_eq_flatten (processCommandInternal cfg fuel) queued []]
    simp
  refine ⟨?_, hpart2, ?_⟩
  · intro cfg fuel input exp hmatch _
    simp [processCommandInternal, hmatch, sendConn]
  · intro cfg fuel input script al queued q hmatch hscript hrun hq
    rw [hpart2 cfg fuel input script al queued hmatch hscript hrun]
    obtain ⟨s, t, hqueued⟩ := List.append_of_mem hq
    subst hqueued
    refine ⟨SessionEvent.aliasMatched al.name input ::
      (s.map (processCommandInternal cfg fuel)).flatten, ?_, ?_⟩
    · exact (t.map (processCommandInternal cfg fuel)).flatten ++
        (if (aliasExecute al input).isEmpty then []
         else
           SessionEvent.aliasExecuted al.name (aliasExecute al input) ::
           (aliasExecute al input).foldl (fun acc c => acc ++ sendConn c) [])
    · simp [List.append_assoc]

/-- Witness for C5 at the concrete counterexample session: the no-alias
branch sends the speedwalkable `"2n"` verbatim, and the queued command's
full trace sits inside the parent trace of `"go"`. -/
theorem C5_script_reentry_amended_witness :
    processCommandInternal cfgC5 1 "2n" = [SessionEvent.commandSent "2n"] ∧
    (∃ l r, processCommandInternal cfgC5 2 "go" =
      l ++ processCommandInternal cfgC5 1 "2n" ++ r) := by
  constructor
  · exact C5_script_reentry_amended.1 cfgC5 0 "2n" ["north", "north"]
      (by simp [cfgC5, findMatch, aliasGo]) (by decide)
  · exact C5_script_reentry_amended.2.2 cfgC5 1 "go" "queue-2n-script" aliasGo ["2n"] "2n"
      (by simp [cfgC5, findMatch, aliasGo]) (by simp [aliasGo, extractAliasScript])
      (by decide) (by simp)

end Macmush
